import Mathlib

/-!
Shallow embedding of the `aon` terminal text editor (src/main.rs).

Strings are modelled as lists of characters.  Fallible Rust operations
(slice indexing, `String::insert`, `String::remove`, `Vec::remove`,
`String::split_off`, ...) are modelled with `Option`, where `none`
corresponds to a panic of the Rust program.  The results of file-system
calls (`fs::read_to_string`, `fs::write`) are passed in explicitly as
parameters, since they live at the collaborator boundary.
-/

namespace Aon

abbrev Str := List Char

/-- Editor modes (src/main.rs, `enum Mode`). -/
inductive Mode
  | insert
  | command
deriving DecidableEq

/-- Cursor position (src/main.rs, `struct Position`). -/
structure Position where
  x : Nat
  y : Nat
deriving DecidableEq

/-- The undoable part of the editor (src/main.rs, `struct EditorState`). -/
structure EditorState where
  buffer : List Str
  cursor : Position
  filename : Option Str
  dirty : Bool
deriving DecidableEq

/-- Whole editor session (src/main.rs, `struct Editor`). -/
structure Editor where
  state : EditorState
  mode : Mode
  command : Str
  undo_stack : List EditorState
  redo_stack : List EditorState
  confirm_exit : Bool
  pending_save : Bool
  clipboard : Str
  ask_filename : Bool
  input_filename : Str
deriving DecidableEq

/-- Rust `str::lines`: drop a trailing carriage return from one line. -/
def stripCR (l : Str) : Str :=
  if l.getLast? = some '\r' then l.dropLast else l

/-- Rust `str::lines`: split on newline characters; a trailing newline does
not produce a final empty line, and the empty string yields no lines. -/
def rustLines (s : Str) : List Str :=
  if s = [] then []
  else
    let parts := s.splitOn '\n'
    let parts := if parts.getLast? = some [] then parts.dropLast else parts
    parts.map stripCR

/-- Embeds `Editor::load_file`.  `readResult` is the outcome of
`fs::read_to_string` (`none` = the file is missing or unreadable);
`unwrap_or_default()` turns that into the empty string. -/
def load_file (filename : Option Str) (readResult : Option Str) : List Str :=
  match filename with
  | some _ => rustLines (readResult.getD [])
  | none => [[]]

/-- Length of the line at row `y` (0 when out of bounds); used to phrase
the clamp invariant. -/
def bufLineLen (buffer : List Str) (y : Nat) : Nat :=
  (buffer[y]?.getD []).length

/-- Embeds `Editor::clamp_cursor`. -/
def clamp_cursor (s : EditorState) : EditorState :=
  if s.buffer.isEmpty then { s with cursor := ⟨0, 0⟩ }
  else
    let y := min s.cursor.y (s.buffer.length - 1)
    { s with cursor := ⟨min s.cursor.x (bufLineLen s.buffer y), y⟩ }

/-- The undo-stack push performed by `save_snapshot`: push at the back,
evict the oldest entry at the front when the bound of 50 is exceeded. -/
def snapPush (st : List EditorState) (s : EditorState) : List EditorState :=
  let pushed := st ++ [s]
  if 50 < pushed.length then pushed.drop 1 else pushed

/-- Iterated `snapPush` over a sequence of snapshotted states. -/
def snapPushAll (st : List EditorState) (l : List EditorState) : List EditorState :=
  l.foldl snapPush st

/-- Embeds `Editor::save_snapshot`: clear the redo stack, push a copy of the
current state (bounded to 50), and mark the live state dirty. -/
def save_snapshot (e : Editor) : Editor :=
  { e with
    redo_stack := [],
    undo_stack := snapPush e.undo_stack e.state,
    state := { e.state with dirty := true } }

/-- Embeds `Editor::undo`; `Vec::pop` takes from the back of the stack. -/
def undo (e : Editor) : Editor :=
  match e.undo_stack.getLast? with
  | some prev =>
    { e with
      undo_stack := e.undo_stack.dropLast,
      redo_stack := e.redo_stack ++ [e.state],
      state := clamp_cursor prev }
  | none => e

/-- Rust `String::insert` / `Vec::insert`: panics when the index is past
the end. -/
def insertAt (l : List α) (i : Nat) (a : α) : Option (List α) :=
  if i ≤ l.length then some (l.take i ++ a :: l.drop i) else none

/-- Rust `String::remove`: panics when the index is out of bounds. -/
def removeAt (l : Str) (i : Nat) : Option Str :=
  if i < l.length then some (l.take i ++ l.drop (i + 1)) else none

/-- Rust `String::insert_str`: panics when the index is past the end. -/
def insertStrAt (l : Str) (i : Nat) (s : Str) : Option Str :=
  if i ≤ l.length then some (l.take i ++ s ++ l.drop i) else none

/-- Rust `String::split_off`: panics when the index is past the end. -/
def splitOff (l : Str) (i : Nat) : Option (Str × Str) :=
  if i ≤ l.length then some (l.take i, l.drop i) else none

/-- Rust `Vec::remove`: returns the removed element, panics when the
index is out of bounds. -/
def vecRemove (l : List α) (i : Nat) : Option (α × List α) :=
  match l[i]? with
  | some a => some (a, l.eraseIdx i)
  | none => none

/-- Embeds `Editor::matching_pair`. -/
def matching_pair (c : Char) : Option Char :=
  if c = '(' then some ')'
  else if c = '\x7b' then some '\x7d'
  else if c = '[' then some ']'
  else if c = '\"' ∨ c = '\'' then some c
  else none

/-- Helper: replace the current line and set the cursor column. -/
def setLine (e : Editor) (line : Str) (newx : Nat) : Editor :=
  { e with state := { e.state with
      buffer := e.state.buffer.set e.state.cursor.y line,
      cursor := ⟨newx, e.state.cursor.y⟩ } }

/-- Helper: clamp the cursor of the live state. -/
def clampEditor (e : Editor) : Editor :=
  { e with state := clamp_cursor e.state }

/-- Embeds `Editor::insert`: snapshot, index the current line (a panic when the
row is out of bounds), insert the character (and its auto-pair partner,
if any), advance the cursor past the opener, clamp. -/
def insert (e : Editor) (c : Char) : Option Editor :=
  let e1 := save_snapshot e
  match e1.state.buffer[e1.state.cursor.y]? with
  | none => none
  | some line =>
    match matching_pair c with
    | some pair =>
      match insertAt line e1.state.cursor.x c with
      | none => none
      | some line2 =>
        match insertAt line2 (e1.state.cursor.x + 1) pair with
        | none => none
        | some line3 => some (clampEditor (setLine e1 line3 (e1.state.cursor.x + 1)))
    | none =>
      match insertAt line e1.state.cursor.x c with
      | none => none
      | some line2 => some (clampEditor (setLine e1 line2 (e1.state.cursor.x + 1)))

/-- Embeds `Editor::delete` (backspace): no-op at (0,0); otherwise snapshot and
either remove the character left of the cursor or merge the current line
into the previous one. -/
def delete (e : Editor) : Option Editor :=
  if e.state.cursor.x = 0 ∧ e.state.cursor.y = 0 then some e
  else
    let e1 := save_snapshot e
    if 0 < e1.state.cursor.x then
      match e1.state.buffer[e1.state.cursor.y]? with
      | none => none
      | some line =>
        match removeAt line (e1.state.cursor.x - 1) with
        | none => none
        | some line2 => some (setLine e1 line2 (e1.state.cursor.x - 1))
    else
      match e1.state.buffer[e1.state.cursor.y - 1]? with
      | none => none
      | some prev =>
        match vecRemove e1.state.buffer e1.state.cursor.y with
        | none => none
        | some (line, buf) =>
          some { e1 with state := { e1.state with
            buffer := buf.set (e1.state.cursor.y - 1) (prev ++ line),
            cursor := ⟨prev.length, e1.state.cursor.y - 1⟩ } }

/-- Embeds `Editor::newline`: snapshot, split the current line at the cursor,
insert the right part as a new line below, move to its start. -/
def newline (e : Editor) : Option Editor :=
  let e1 := save_snapshot e
  match e1.state.buffer[e1.state.cursor.y]? with
  | none => none
  | some line =>
    match splitOff line e1.state.cursor.x with
    | none => none
    | some (left, rest) =>
      match insertAt (e1.state.buffer.set e1.state.cursor.y left)
          (e1.state.cursor.y + 1) rest with
      | none => none
      | some buf =>
        some { e1 with state := { e1.state with
          buffer := buf,
          cursor := ⟨0, e1.state.cursor.y + 1⟩ } }

/-- Embeds `Editor::copy_selection`: copy the whole current line (indexing the
buffer, hence a panic when the row is out of bounds). -/
def copy_selection (e : Editor) : Option Editor :=
  match e.state.buffer[e.state.cursor.y]? with
  | none => none
  | some line => some { e with clipboard := line }

/-- Embeds `Editor::paste`: when the clipboard is non-empty, snapshot and insert
it at the cursor, advancing the cursor by its length. -/
def paste (e : Editor) : Option Editor :=
  if e.clipboard = [] then some e
  else
    let e1 := save_snapshot e
    match e1.state.buffer[e1.state.cursor.y]? with
    | none => none
    | some line =>
      match insertStrAt line e1.state.cursor.x e1.clipboard with
      | none => none
      | some line2 => some (setLine e1 line2 (e1.state.cursor.x + e1.clipboard.length))

/-- Embeds `Editor::save_to_file`.  `writeOk` is the outcome of `fs::write`;
on failure the `?` operator returns early, leaving the state unchanged.
The returned flag is `true` for `Ok(())`. -/
def save_to_file (e : Editor) (filename : Str) (writeOk : Bool) : Editor × Bool :=
  if writeOk then
    ({ e with state := { e.state with filename := some filename, dirty := false } }, true)
  else (e, false)

/-- Outcome of `process_command`: continue the loop (`Ok(false)`),
leave it (`Ok(true)`), or propagate an I/O error (`Err(_)`, which also
leaves the loop in `main`). -/
inductive CmdResult
  | cont
  | exitLoop
  | err
deriving DecidableEq

/-- Rust `str::trim` on the command string. -/
def trimChars (l : Str) : Str :=
  ((l.dropWhile Char.isWhitespace).reverse.dropWhile Char.isWhitespace).reverse

/-- The command match of `Editor::process_command`, taking the trimmed
command string.  Every fall-through arm clears the command text and
reverts to insert mode. -/
def dispatch (e : Editor) (cmd : Str) (writeOk : Bool) : Editor × CmdResult :=
  let finish := fun (e2 : Editor) =>
    ({ e2 with command := [], mode := Mode.insert }, CmdResult.cont)
  if cmd = ['w'] then
    match e.state.filename with
    | some name => finish (save_to_file e name writeOk).1
    | none => finish { e with ask_filename := true }
  else if cmd = ['q'] then
    if e.state.dirty then finish { e with confirm_exit := true, pending_save := true }
    else (e, CmdResult.exitLoop)
  else if cmd = ['w', 'q'] then
    match e.state.filename with
    | some name =>
      let r := save_to_file e name writeOk
      if r.2 then (r.1, CmdResult.exitLoop) else (r.1, CmdResult.err)
    | none => finish { e with ask_filename := true }
  else finish e

/-- Embeds `Editor::process_command`. -/
def process_command (e : Editor) (writeOk : Bool) : Editor × CmdResult :=
  dispatch e (trimChars e.command) writeOk

/-- Decoded key events (the crossterm key codes the program inspects). -/
inductive Key
  | char (c : Char) (ctrl : Bool)
  | backspace
  | enter
  | esc
  | up
  | down
  | left
  | right
  | other
deriving DecidableEq

/-- Arrow-up arm of the main loop. -/
def moveUp (e : Editor) : Option Editor :=
  if 0 < e.state.cursor.y then
    match e.state.buffer[e.state.cursor.y - 1]? with
    | none => none
    | some l => some { e with state := { e.state with
        cursor := ⟨min e.state.cursor.x l.length, e.state.cursor.y - 1⟩ } }
  else some e

/-- Arrow-down arm of the main loop. -/
def moveDown (e : Editor) : Option Editor :=
  if e.state.cursor.y + 1 < e.state.buffer.length then
    match e.state.buffer[e.state.cursor.y + 1]? with
    | none => none
    | some l => some { e with state := { e.state with
        cursor := ⟨min e.state.cursor.x l.length, e.state.cursor.y + 1⟩ } }
  else some e

/-- Arrow-left arm of the main loop. -/
def moveLeft (e : Editor) : Option Editor :=
  if 0 < e.state.cursor.x then
    some { e with state := { e.state with
      cursor := ⟨e.state.cursor.x - 1, e.state.cursor.y⟩ } }
  else if 0 < e.state.cursor.y then
    match e.state.buffer[e.state.cursor.y - 1]? with
    | none => none
    | some l => some { e with state := { e.state with
        cursor := ⟨l.length, e.state.cursor.y - 1⟩ } }
  else some e

/-- Arrow-right arm of the main loop; note that the current line is
indexed before any test, so an out-of-bounds row is a panic. -/
def moveRight (e : Editor) : Option Editor :=
  match e.state.buffer[e.state.cursor.y]? with
  | none => none
  | some l =>
    if e.state.cursor.x < l.length then
      some { e with state := { e.state with
        cursor := ⟨e.state.cursor.x + 1, e.state.cursor.y⟩ } }
    else if e.state.cursor.y + 1 < e.state.buffer.length then
      some { e with state := { e.state with
        cursor := ⟨0, e.state.cursor.y + 1⟩ } }
    else some e

/-- One iteration of the key-event handling in `main`.  The result is
`none` when the Rust program panics; otherwise `some (e2, b)` where `b`
is `true` exactly when the loop terminates (by `break` or by an error
propagated out of `process_command`).  `writeOk` is the outcome any
`fs::write` performed during this event would have. -/
def step (e : Editor) (k : Key) (writeOk : Bool) : Option (Editor × Bool) :=
  if e.ask_filename then
    match k with
    | Key.char c _ => some ({ e with input_filename := e.input_filename ++ [c] }, false)
    | Key.backspace => some ({ e with input_filename := e.input_filename.dropLast }, false)
    | Key.enter =>
      some ({ (save_to_file e e.input_filename writeOk).1 with ask_filename := false }, false)
    | Key.esc => some ({ e with ask_filename := false, pending_save := false }, false)
    | _ => some (e, false)
  else if e.confirm_exit then
    match k with
    | Key.char c _ =>
      if c = 'y' ∨ c = 'Y' then
        match e.state.filename with
        | some name => some ((save_to_file e name writeOk).1, true)
        | none => some ({ e with ask_filename := true }, false)
      else if c = 'n' ∨ c = 'N' then some (e, true)
      else some (e, false)
    | Key.esc => some ({ e with confirm_exit := false, pending_save := false }, false)
    | _ => some (e, false)
  else
    match e.mode with
    | Mode.insert =>
      match k with
      | Key.char c ctrl =>
        if c = ':' then some ({ e with mode := Mode.command }, false)
        else if ctrl ∧ c = 'c' then (copy_selection e).map (fun e2 => (e2, false))
        else if ctrl ∧ c = 'v' then (paste e).map (fun e2 => (e2, false))
        else if ctrl ∧ c = 'z' then some (undo e, false)
        else (insert e c).map (fun e2 => (e2, false))
      | Key.backspace => (delete e).map (fun e2 => (e2, false))
      | Key.enter => (newline e).map (fun e2 => (e2, false))
      | Key.up => (moveUp e).map (fun e2 => (e2, false))
      | Key.down => (moveDown e).map (fun e2 => (e2, false))
      | Key.left => (moveLeft e).map (fun e2 => (e2, false))
      | Key.right => (moveRight e).map (fun e2 => (e2, false))
      | Key.esc => some (e, true)
      | Key.other => some (e, false)
    | Mode.command =>
      match k with
      | Key.char c _ => some ({ e with command := e.command ++ [c] }, false)
      | Key.backspace => some ({ e with command := e.command.dropLast }, false)
      | Key.enter =>
        let r := process_command e writeOk
        match r.2 with
        | CmdResult.cont => some (r.1, false)
        | CmdResult.exitLoop => some (r.1, true)
        | CmdResult.err => some (r.1, true)
      | Key.esc => some ({ e with command := [], mode := Mode.insert }, false)
      | _ => some (e, false)

/-- Embeds `Editor::new`, given the startup filename and the read outcome. -/
def init (filename : Option Str) (readResult : Option Str) : Editor :=
  { state := { buffer := load_file filename readResult,
               cursor := ⟨0, 0⟩,
               filename := filename,
               dirty := false },
    mode := Mode.insert,
    command := [],
    undo_stack := [],
    redo_stack := [],
    confirm_exit := false,
    pending_save := false,
    clipboard := [],
    ask_filename := false,
    input_filename := [] }

/-- Editor sessions reachable by the event loop from some startup state,
through non-panicking steps. -/
inductive Reachable : Editor → Prop
  | init (filename readResult : Option Str) : Reachable (init filename readResult)
  | step {e e2 : Editor} (k : Key) (writeOk : Bool) (b : Bool) :
      Reachable e → step e k writeOk = some (e2, b) → Reachable e2

/-- The clamp invariant of the specification: the cursor row is in
bounds (or the buffer is empty and the cursor is the origin), and the
cursor column is at most the current line's length. -/
def stateInv (s : EditorState) : Prop :=
  (s.cursor.y < s.buffer.length ∨ (s.buffer = [] ∧ s.cursor = ⟨0, 0⟩)) ∧
  s.cursor.x ≤ bufLineLen s.buffer s.cursor.y

instance (s : EditorState) : Decidable (stateInv s) := by
  unfold stateInv
  infer_instance

/-- A concrete dirty state with content, for exercising the theorems. -/
def sampleState : EditorState :=
  { buffer := [['h', 'i']], cursor := ⟨2, 0⟩, filename := none, dirty := true }

/-- A session sitting in the confirm-exit overlay with unsaved changes
and no known filename (as after `:q` on a dirty unnamed buffer). -/
def cex0 : Editor :=
  { state := sampleState,
    mode := Mode.insert,
    command := [],
    undo_stack := [],
    redo_stack := [],
    confirm_exit := true,
    pending_save := true,
    clipboard := [],
    ask_filename := false,
    input_filename := ['f'] }

/-- The session `cex0` after answering `y`: the filename prompt is active. -/
def cex1 : Editor := { cex0 with ask_filename := true }

/-- The session `cex1` after committing the prompt with Enter (write succeeded). -/
def cex2 : Editor :=
  { cex1 with
    ask_filename := false,
    state := { cex1.state with filename := some ['f'], dirty := false } }

/-- A dirty unnamed session sitting in the filename prompt (as after
`:w` on an unnamed buffer and typing a name). -/
def fex : Editor :=
  { cex0 with
    confirm_exit := false,
    pending_save := false,
    ask_filename := true,
    input_filename := ['o'] }

/-- A dirty unnamed session in command mode with command text `q`. -/
def cmdQ : Editor :=
  { cex0 with
    confirm_exit := false,
    pending_save := false,
    mode := Mode.command,
    command := ['q'] }

/-- A clean session in command mode with command text `q`. -/
def cmdQClean : Editor :=
  { cmdQ with state := { sampleState with dirty := false } }

/-- A dirty unnamed session in command mode with command text `w`. -/
def cmdW : Editor := { cmdQ with command := ['w'] }

/-- A session with the cursor in the middle of the line `hi`. -/
def midE : Editor :=
  { cex0 with
    confirm_exit := false,
    pending_save := false,
    state := { sampleState with cursor := ⟨1, 0⟩ } }

/-! ### Projection lemmas for the snapshot and save helpers -/

@[simp] theorem save_snapshot_state_buffer (e : Editor) :
    (save_snapshot e).state.buffer = e.state.buffer := rfl

@[simp] theorem save_snapshot_state_cursor (e : Editor) :
    (save_snapshot e).state.cursor = e.state.cursor := rfl

@[simp] theorem save_snapshot_undo_stack (e : Editor) :
    (save_snapshot e).undo_stack = snapPush e.undo_stack e.state := rfl

@[simp] theorem save_snapshot_clipboard (e : Editor) :
    (save_snapshot e).clipboard = e.clipboard := rfl

@[simp] theorem setLine_undo_stack (e : Editor) (l : Str) (nx : Nat) :
    (setLine e l nx).undo_stack = e.undo_stack := rfl

@[simp] theorem clampEditor_undo_stack (e : Editor) :
    (clampEditor e).undo_stack = e.undo_stack := rfl

@[simp] theorem clampEditor_state (e : Editor) :
    (clampEditor e).state = clamp_cursor e.state := rfl

@[simp] theorem save_to_file_fst_buffer (e : Editor) (n : Str) (w : Bool) :
    (save_to_file e n w).1.state.buffer = e.state.buffer := by
  unfold save_to_file
  split <;> rfl

@[simp] theorem save_to_file_fst_cursor (e : Editor) (n : Str) (w : Bool) :
    (save_to_file e n w).1.state.cursor = e.state.cursor := by
  unfold save_to_file
  split <;> rfl

@[simp] theorem save_to_file_fst_undo_stack (e : Editor) (n : Str) (w : Bool) :
    (save_to_file e n w).1.undo_stack = e.undo_stack := by
  unfold save_to_file
  split <;> rfl

/-! ### The clamp operation -/

/-- Clamping always establishes the clamp invariant. -/
theorem clamp_cursor_inv (s : EditorState) : stateInv (clamp_cursor s) := by
  unfold clamp_cursor stateInv bufLineLen
  split
  · rename_i hB
    have hB2 : s.buffer = [] := by simpa [List.isEmpty_iff] using hB
    simp [hB2]
  · rename_i hB
    have hne : s.buffer ≠ [] := by simpa [List.isEmpty_iff] using hB
    have hlen : 0 < s.buffer.length := List.length_pos.mpr hne
    constructor
    · left
      simp only []
      omega
    · simp only []
      exact min_le_right _ _

/-- Clamping a state that already satisfies the invariant is the
identity. -/
theorem clamp_cursor_id {s : EditorState} (h : stateInv s) : clamp_cursor s = s := by
  obtain ⟨h1, h2⟩ := h
  unfold clamp_cursor
  split
  · rename_i hB
    have hB2 : s.buffer = [] := by simpa [List.isEmpty_iff] using hB
    rcases h1 with h1 | ⟨_, hc⟩
    · rw [hB2] at h1
      simp at h1
    · cases s
      simp_all
  · rename_i hB
    have hne : s.buffer ≠ [] := by simpa [List.isEmpty_iff] using hB
    rcases h1 with h1 | ⟨hB2, _⟩
    · cases s with
      | mk b c f d =>
        cases c with
        | mk cx cy =>
          simp only [] at h1 h2 ⊢
          have hy : min cy (b.length - 1) = cy := by omega
          have hx : min cx (bufLineLen b cy) = cx := min_eq_left h2
          rw [hy, hx]
    · exact absurd hB2 hne

/-! ### Characterizations of the fallible list primitives -/

theorem getq_lt {l : List α} {i : Nat} {a : α} (h : l[i]? = some a) : i < l.length :=
  (List.getElem?_eq_some.mp h).1

theorem set_getq_self {l : List α} {i : Nat} {a : α} (h : l[i]? = some a) :
    l.set i a = l := by
  induction l generalizing i with
  | nil => simp at h
  | cons b t ih =>
    cases i with
    | zero =>
      simp only [List.getElem?_cons_zero, Option.some.injEq] at h
      simp [h]
    | succ n =>
      simp only [List.getElem?_cons_succ] at h
      simp [ih h]

theorem insertAt_eq_some {l : List α} {i : Nat} {a : α} {l2 : List α}
    (h : insertAt l i a = some l2) :
    i ≤ l.length ∧ l2 = l.take i ++ a :: l.drop i := by
  unfold insertAt at h
  split at h
  · rename_i hle
    cases h
    exact ⟨hle, rfl⟩
  · cases h

theorem insertAt_length {l : List α} {i : Nat} {a : α} {l2 : List α}
    (h : insertAt l i a = some l2) : l2.length = l.length + 1 := by
  obtain ⟨hle, rfl⟩ := insertAt_eq_some h
  simp only [List.length_append, List.length_take, List.length_cons, List.length_drop]
  omega

theorem removeAt_eq_some {l : Str} {i : Nat} {l2 : Str}
    (h : removeAt l i = some l2) :
    i < l.length ∧ l2 = l.take i ++ l.drop (i + 1) := by
  unfold removeAt at h
  split at h
  · rename_i hlt
    cases h
    exact ⟨hlt, rfl⟩
  · cases h

theorem removeAt_length {l : Str} {i : Nat} {l2 : Str}
    (h : removeAt l i = some l2) : l2.length = l.length - 1 := by
  obtain ⟨hlt, rfl⟩ := removeAt_eq_some h
  simp only [List.length_append, List.length_take, List.length_drop]
  omega

theorem insertStrAt_eq_some {l : Str} {i : Nat} {s : Str} {l2 : Str}
    (h : insertStrAt l i s = some l2) :
    i ≤ l.length ∧ l2 = l.take i ++ s ++ l.drop i := by
  unfold insertStrAt at h
  split at h
  · rename_i hle
    cases h
    exact ⟨hle, rfl⟩
  · cases h

theorem insertStrAt_length {l : Str} {i : Nat} {s : Str} {l2 : Str}
    (h : insertStrAt l i s = some l2) : l2.length = l.length + s.length := by
  obtain ⟨hle, rfl⟩ := insertStrAt_eq_some h
  simp only [List.length_append, List.length_take, List.length_drop]
  omega

theorem splitOff_eq_some {l : Str} {i : Nat} {p : Str × Str}
    (h : splitOff l i = some p) :
    i ≤ l.length ∧ p = (l.take i, l.drop i) := by
  unfold splitOff at h
  split at h
  · rename_i hle
    cases h
    exact ⟨hle, rfl⟩
  · cases h

theorem vecRemove_eq_some {l : List α} {i : Nat} {a : α} {l2 : List α}
    (h : vecRemove l i = some (a, l2)) :
    l[i]? = some a ∧ l2 = l.eraseIdx i := by
  unfold vecRemove at h
  split at h
  · rename_i b hg
    cases h
    exact ⟨hg, rfl⟩
  · cases h

/-! ### The clamp invariant is preserved by every editing operation -/

theorem stateInv_transfer {s t : EditorState} (hb : t.buffer = s.buffer)
    (hc : t.cursor = s.cursor) (h : stateInv s) : stateInv t := by
  unfold stateInv bufLineLen at *
  rw [hb, hc]
  exact h

theorem insert_inv {e : Editor} {c : Char} {e2 : Editor} (h : insert e c = some e2) :
    stateInv e2.state := by
  unfold insert at h
  simp only [save_snapshot_state_buffer, save_snapshot_state_cursor] at h
  split at h
  · cases h
  · split at h
    · split at h
      · cases h
      · split at h
        · cases h
        · cases h
          exact clamp_cursor_inv _
    · split at h
      · cases h
      · cases h
        exact clamp_cursor_inv _

theorem delete_inv {e e2 : Editor} (hinv : stateInv e.state)
    (h : delete e = some e2) : stateInv e2.state := by
  unfold delete at h
  split at h
  · cases h
    exact hinv
  · rename_i hno
    simp only [save_snapshot_state_buffer, save_snapshot_state_cursor] at h
    split at h
    · rename_i hx
      split at h
      · cases h
      · rename_i line hl
        split at h
        · cases h
        · rename_i line2 hrm
          cases h
          obtain ⟨hlt, _⟩ := removeAt_eq_some hrm
          have hy := getq_lt hl
          have hlen := removeAt_length hrm
          constructor
          · left
            simpa [setLine, List.length_set] using hy
          · simp only [setLine, bufLineLen, save_snapshot_state_buffer,
              save_snapshot_state_cursor]
            rw [List.getElem?_set_self hy]
            simp only [Option.getD_some]
            omega
    · rename_i hx
      split at h
      · cases h
      · rename_i prev hp
        split at h
        · cases h
        · rename_i line buf hvr
          cases h
          obtain ⟨hg, hbuf⟩ := vecRemove_eq_some hvr
          have hylt := getq_lt hg
          have hy0 : e.state.cursor.y ≠ 0 := by
            intro h0
            exact hno ⟨by omega, h0⟩
          have hblen : buf.length = e.state.buffer.length - 1 := by
            rw [hbuf, List.length_eraseIdx]
            simp [hylt]
          have hym : e.state.cursor.y - 1 < buf.length := by omega
          constructor
          · left
            simpa [List.length_set] using hym
          · simp only [bufLineLen]
            rw [List.getElem?_set_self hym]
            simp

theorem newline_inv {e e2 : Editor} (h : newline e = some e2) :
    stateInv e2.state := by
  unfold newline at h
  simp only [save_snapshot_state_buffer, save_snapshot_state_cursor] at h
  split at h
  · cases h
  · rename_i line hl
    split at h
    · cases h
    · rename_i left rest hsp
      split at h
      · cases h
      · rename_i buf hins
        cases h
        have hy := getq_lt hl
        have hlen : buf.length = e.state.buffer.length + 1 := by
          rw [insertAt_length hins]
          simp [List.length_set]
        constructor
        · left
          simpa [hlen] using hy
        · simp [bufLineLen]

theorem paste_inv {e e2 : Editor} (hinv : stateInv e.state)
    (h : paste e = some e2) : stateInv e2.state := by
  unfold paste at h
  split at h
  · cases h
    exact hinv
  · simp only [save_snapshot_state_buffer, save_snapshot_state_cursor,
      save_snapshot_clipboard] at h
    split at h
    · cases h
    · rename_i line hl
      split at h
      · cases h
      · rename_i line2 hins
        cases h
        obtain ⟨hle, _⟩ := insertStrAt_eq_some hins
        have hy := getq_lt hl
        have hlen := insertStrAt_length hins
        constructor
        · left
          simpa [setLine, List.length_set] using hy
        · simp only [setLine, bufLineLen, save_snapshot_state_buffer,
            save_snapshot_state_cursor]
          rw [List.getElem?_set_self hy]
          simp only [Option.getD_some]
          omega

theorem copy_selection_inv {e e2 : Editor} (hinv : stateInv e.state)
    (h : copy_selection e = some e2) : stateInv e2.state := by
  unfold copy_selection at h
  split at h
  · cases h
  · cases h
    exact hinv

theorem undo_inv {e : Editor} (hinv : stateInv e.state) :
    stateInv (undo e).state := by
  unfold undo
  split
  · exact clamp_cursor_inv _
  · exact hinv

theorem moveUp_inv {e e2 : Editor} (hinv : stateInv e.state)
    (h : moveUp e = some e2) : stateInv e2.state := by
  unfold moveUp at h
  split at h
  · split at h
    · cases h
    · rename_i l hl
      cases h
      refine ⟨Or.inl (getq_lt hl), ?_⟩
      simp only [bufLineLen, hl, Option.getD_some]
      exact min_le_right _ _
  · cases h
    exact hinv

theorem moveDown_inv {e e2 : Editor} (hinv : stateInv e.state)
    (h : moveDown e = some e2) : stateInv e2.state := by
  unfold moveDown at h
  split at h
  · split at h
    · cases h
    · rename_i l hl
      cases h
      refine ⟨Or.inl (getq_lt hl), ?_⟩
      simp only [bufLineLen, hl, Option.getD_some]
      exact min_le_right _ _
  · cases h
    exact hinv

theorem moveLeft_inv {e e2 : Editor} (hinv : stateInv e.state)
    (h : moveLeft e = some e2) : stateInv e2.state := by
  unfold moveLeft at h
  split at h
  · rename_i hx
    cases h
    obtain ⟨h1, h2⟩ := hinv
    constructor
    · left
      rcases h1 with h1 | ⟨_, hc⟩
      · exact h1
      · rw [hc] at hx
        simp at hx
    · simp only [bufLineLen] at *
      omega
  · split at h
    · split at h
      · cases h
      · rename_i l hl
        cases h
        refine ⟨Or.inl (getq_lt hl), ?_⟩
        simp [bufLineLen, hl]
    · cases h
      exact hinv

theorem moveRight_inv {e e2 : Editor} (hinv : stateInv e.state)
    (h : moveRight e = some e2) : stateInv e2.state := by
  unfold moveRight at h
  split at h
  · cases h
  · rename_i l hl
    split at h
    · rename_i hx
      cases h
      refine ⟨Or.inl (getq_lt hl), ?_⟩
      simp only [bufLineLen, hl, Option.getD_some]
      omega
    · split at h
      · rename_i hy
        cases h
        refine ⟨Or.inl hy, ?_⟩
        simp [bufLineLen]
      · cases h
        exact hinv

/-! ### The command interpreter does not move the cursor or edit the buffer -/

@[simp] theorem dispatch_fst_buffer (e : Editor) (cmd : Str) (w : Bool) :
    (dispatch e cmd w).1.state.buffer = e.state.buffer := by
  unfold dispatch
  simp only []
  repeat' split
  all_goals simp

@[simp] theorem dispatch_fst_cursor (e : Editor) (cmd : Str) (w : Bool) :
    (dispatch e cmd w).1.state.cursor = e.state.cursor := by
  unfold dispatch
  simp only []
  repeat' split
  all_goals simp

@[simp] theorem dispatch_fst_undo_stack (e : Editor) (cmd : Str) (w : Bool) :
    (dispatch e cmd w).1.undo_stack = e.undo_stack := by
  unfold dispatch
  simp only []
  repeat' split
  all_goals simp

@[simp] theorem process_command_fst_buffer (e : Editor) (w : Bool) :
    (process_command e w).1.state.buffer = e.state.buffer := by
  unfold process_command
  simp

@[simp] theorem process_command_fst_cursor (e : Editor) (w : Bool) :
    (process_command e w).1.state.cursor = e.state.cursor := by
  unfold process_command
  simp

@[simp] theorem process_command_fst_undo_stack (e : Editor) (w : Bool) :
    (process_command e w).1.undo_stack = e.undo_stack := by
  unfold process_command
  simp

/-! ### One loop iteration preserves the clamp invariant -/

theorem step_inv {e e2 : Editor} {k : Key} {w b : Bool} (hinv : stateInv e.state)
    (h : step e k w = some (e2, b)) : stateInv e2.state := by
  unfold step at h
  split at h
  · -- filename prompt overlay
    split at h <;> cases h <;>
      exact stateInv_transfer (by simp) (by simp) hinv
  · split at h
    · -- confirm-exit overlay
      split at h
      · split at h
        · split at h <;> cases h <;>
            exact stateInv_transfer (by simp) (by simp) hinv
        · split at h <;> cases h <;>
            exact stateInv_transfer (by simp) (by simp) hinv
      all_goals cases h
      all_goals exact stateInv_transfer (by simp) (by simp) hinv
    · -- normal dispatch
      split at h
      · -- insert mode
        split at h
        · -- character key
          split at h
          · cases h
            exact stateInv_transfer (by simp) (by simp) hinv
          · split at h
            · rcases Option.map_eq_some'.mp h with ⟨e3, h3, he⟩
              cases he
              exact copy_selection_inv hinv h3
            · split at h
              · rcases Option.map_eq_some'.mp h with ⟨e3, h3, he⟩
                cases he
                exact paste_inv hinv h3
              · split at h
                · cases h
                  exact undo_inv hinv
                · rcases Option.map_eq_some'.mp h with ⟨e3, h3, he⟩
                  cases he
                  exact insert_inv h3
        · rcases Option.map_eq_some'.mp h with ⟨e3, h3, he⟩
          cases he
          exact delete_inv hinv h3
        · rcases Option.map_eq_some'.mp h with ⟨e3, h3, he⟩
          cases he
          exact newline_inv h3
        · rcases Option.map_eq_some'.mp h with ⟨e3, h3, he⟩
          cases he
          exact moveUp_inv hinv h3
        · rcases Option.map_eq_some'.mp h with ⟨e3, h3, he⟩
          cases he
          exact moveDown_inv hinv h3
        · rcases Option.map_eq_some'.mp h with ⟨e3, h3, he⟩
          cases he
          exact moveLeft_inv hinv h3
        · rcases Option.map_eq_some'.mp h with ⟨e3, h3, he⟩
          cases he
          exact moveRight_inv hinv h3
        · cases h
          exact hinv
        · cases h
          exact hinv
      · -- command mode
        split at h
        · cases h
          exact stateInv_transfer (by simp) (by simp) hinv
        · cases h
          exact stateInv_transfer (by simp) (by simp) hinv
        · simp only [] at h
          split at h <;> cases h <;>
            exact stateInv_transfer (by simp) (by simp) hinv
        · cases h
          exact stateInv_transfer (by simp) (by simp) hinv
        · cases h
          exact hinv

/-- C3: for every reachable editor state, `cursor.y < buffer.length` (or
the buffer is empty and the cursor is `(0,0)`) and
`cursor.x <= buffer[cursor.y].length`; since reachability is closed
under every editing operation, arrow-key move and undo, the invariant
holds after each of them. -/
theorem clamp_invariant (e : Editor) (h : Reachable e) : stateInv e.state := by
  induction h with
  | init fn rr =>
    constructor
    · by_cases hb : load_file fn rr = []
      · right
        exact ⟨hb, rfl⟩
      · left
        simpa [init] using List.length_pos.mpr hb
    · exact Nat.zero_le _
  | step k w b hr hs ih => exact step_inv ih hs

/-- Witness for C3 at a concrete reachable session. -/
theorem clamp_invariant_witness : stateInv (init none none).state :=
  clamp_invariant (init none none) (Reachable.init none none)

/-! ### The undo stack bound -/

theorem snapPush_length {st : List EditorState} {s : EditorState}
    (h : st.length ≤ 50) : (snapPush st s).length ≤ 50 := by
  unfold snapPush
  simp only []
  split
  · simp only [List.length_drop, List.length_append, List.length_cons, List.length_nil]
    omega
  · rename_i hng
    simp only [not_lt, List.length_append, List.length_cons, List.length_nil] at hng
    simp only [List.length_append, List.length_cons, List.length_nil]
    omega

theorem snapPush_getLast (st : List EditorState) (s : EditorState) :
    (snapPush st s).getLast? = some s := by
  unfold snapPush
  simp only []
  split
  · rename_i hlen
    cases st with
    | nil => simp at hlen
    | cons a t =>
      rw [List.cons_append, List.drop_one, List.tail_cons]
      exact List.getLast?_concat _
  · exact List.getLast?_concat _

/-! ### Shape of the undo stack after each operation -/

theorem insert_undo_stack {e e2 : Editor} {c : Char} (h : insert e c = some e2) :
    e2.undo_stack = snapPush e.undo_stack e.state := by
  unfold insert at h
  simp only [save_snapshot_state_buffer, save_snapshot_state_cursor] at h
  split at h
  · cases h
  · split at h
    · split at h
      · cases h
      · split at h
        · cases h
        · cases h
          simp
    · split at h
      · cases h
      · cases h
        simp

theorem delete_undo_stack {e e2 : Editor} (h : delete e = some e2) :
    e2.undo_stack = e.undo_stack ∨ e2.undo_stack = snapPush e.undo_stack e.state := by
  unfold delete at h
  split at h
  · cases h
    left
    rfl
  · simp only [save_snapshot_state_buffer, save_snapshot_state_cursor] at h
    split at h
    · split at h
      · cases h
      · split at h
        · cases h
        · cases h
          right
          simp
    · split at h
      · cases h
      · split at h
        · cases h
        · cases h
          right
          simp

theorem newline_undo_stack {e e2 : Editor} (h : newline e = some e2) :
    e2.undo_stack = snapPush e.undo_stack e.state := by
  unfold newline at h
  simp only [save_snapshot_state_buffer, save_snapshot_state_cursor] at h
  split at h
  · cases h
  · split at h
    · cases h
    · split at h
      · cases h
      · cases h
        simp

theorem paste_undo_stack {e e2 : Editor} (h : paste e = some e2) :
    e2.undo_stack = e.undo_stack ∨ e2.undo_stack = snapPush e.undo_stack e.state := by
  unfold paste at h
  split at h
  · cases h
    left
    rfl
  · simp only [save_snapshot_state_buffer, save_snapshot_state_cursor,
      save_snapshot_clipboard] at h
    split at h
    · cases h
    · split at h
      · cases h
      · cases h
        right
        simp

theorem copy_selection_undo_stack {e e2 : Editor} (h : copy_selection e = some e2) :
    e2.undo_stack = e.undo_stack := by
  unfold copy_selection at h
  split at h
  · cases h
  · cases h
    rfl

theorem undo_undo_stack (e : Editor) :
    (undo e).undo_stack = e.undo_stack ∨ (undo e).undo_stack = e.undo_stack.dropLast := by
  unfold undo
  split
  · right
    rfl
  · left
    rfl

theorem moveUp_undo_stack {e e2 : Editor} (h : moveUp e = some e2) :
    e2.undo_stack = e.undo_stack := by
  unfold moveUp at h
  split at h
  · split at h
    · cases h
    · cases h
      rfl
  · cases h
    rfl

theorem moveDown_undo_stack {e e2 : Editor} (h : moveDown e = some e2) :
    e2.undo_stack = e.undo_stack := by
  unfold moveDown at h
  split at h
  · split at h
    · cases h
    · cases h
      rfl
  · cases h
    rfl

theorem moveLeft_undo_stack {e e2 : Editor} (h : moveLeft e = some e2) :
    e2.undo_stack = e.undo_stack := by
  unfold moveLeft at h
  split at h
  · cases h
    rfl
  · split at h
    · split at h
      · cases h
      · cases h
        rfl
    · cases h
      rfl

theorem moveRight_undo_stack {e e2 : Editor} (h : moveRight e = some e2) :
    e2.undo_stack = e.undo_stack := by
  unfold moveRight at h
  split at h
  · cases h
  · split at h
    · cases h
      rfl
    · split at h <;> cases h <;> rfl

/-- Shape of the undo stack after one loop iteration: unchanged, one
snapshot pushed, or one entry popped. -/
theorem step_undo_stack {e e2 : Editor} {k : Key} {w b : Bool}
    (h : step e k w = some (e2, b)) :
    e2.undo_stack = e.undo_stack ∨
    e2.undo_stack = snapPush e.undo_stack e.state ∨
    e2.undo_stack = e.undo_stack.dropLast := by
  unfold step at h
  split at h
  · split at h <;> cases h <;> simp
  · split at h
    · split at h
      · split at h
        · split at h <;> cases h <;> simp
        · split at h <;> cases h <;> simp
      all_goals cases h
      all_goals simp
    · split at h
      · split at h
        · split at h
          · cases h
            left
            rfl
          · split at h
            · rcases Option.map_eq_some'.mp h with ⟨e3, h3, he⟩
              cases he
              exact Or.inl (copy_selection_undo_stack h3)
            · split at h
              · rcases Option.map_eq_some'.mp h with ⟨e3, h3, he⟩
                cases he
                rcases paste_undo_stack h3 with h4 | h4
                · exact Or.inl h4
                · exact Or.inr (Or.inl h4)
              · split at h
                · cases h
                  rcases undo_undo_stack e with h4 | h4
                  · exact Or.inl h4
                  · exact Or.inr (Or.inr h4)
                · rcases Option.map_eq_some'.mp h with ⟨e3, h3, he⟩
                  cases he
                  exact Or.inr (Or.inl (insert_undo_stack h3))
        · rcases Option.map_eq_some'.mp h with ⟨e3, h3, he⟩
          cases he
          rcases delete_undo_stack h3 with h4 | h4
          · exact Or.inl h4
          · exact Or.inr (Or.inl h4)
        · rcases Option.map_eq_some'.mp h with ⟨e3, h3, he⟩
          cases he
          exact Or.inr (Or.inl (newline_undo_stack h3))
        · rcases Option.map_eq_some'.mp h with ⟨e3, h3, he⟩
          cases he
          exact Or.inl (moveUp_undo_stack h3)
        · rcases Option.map_eq_some'.mp h with ⟨e3, h3, he⟩
          cases he
          exact Or.inl (moveDown_undo_stack h3)
        · rcases Option.map_eq_some'.mp h with ⟨e3, h3, he⟩
          cases he
          exact Or.inl (moveLeft_undo_stack h3)
        · rcases Option.map_eq_some'.mp h with ⟨e3, h3, he⟩
          cases he
          exact Or.inl (moveRight_undo_stack h3)
        · cases h
          left
          rfl
        · cases h
          left
          rfl
      · split at h
        · cases h
          left
          rfl
        · cases h
          left
          rfl
        · simp only [] at h
          split at h <;> cases h <;> simp
        · cases h
          left
          rfl
        · cases h
          left
          rfl

theorem reachable_undo_len {e : Editor} (h : Reachable e) :
    e.undo_stack.length ≤ 50 := by
  induction h with
  | init fn rr => simp [init]
  | step k w b hr hs ih =>
    rcases step_undo_stack hs with h4 | h4 | h4
    · rw [h4]
      exact ih
    · rw [h4]
      exact snapPush_length ih
    · rw [h4]
      simp only [List.length_dropLast]
      omega

theorem snapPushAll_drop (l st : List EditorState) (h50 : st.length ≤ 50)
    (hlen : 50 ≤ (st ++ l).length) :
    snapPushAll st l = (st ++ l).drop ((st ++ l).length - 50) := by
  induction l generalizing st with
  | nil =>
    simp only [List.append_nil] at *
    have h5 : st.length = 50 := le_antisymm h50 hlen
    simp [snapPushAll, h5]
  | cons s l ih =>
    have hstep : snapPushAll st (s :: l) = snapPushAll (snapPush st s) l := rfl
    rw [hstep]
    have hassoc : st ++ s :: l = (st ++ [s]) ++ l := by simp
    by_cases hc : st.length = 50
    · have hpush : snapPush st s = st.drop 1 ++ [s] := by
        unfold snapPush
        simp only []
        rw [if_pos (by simp [hc])]
        exact List.drop_append_of_le_length (by omega)
      have hlen1 : (st.drop 1 ++ [s]).length = 50 := by
        simp [List.length_drop, hc]
      have hIH := ih (st.drop 1 ++ [s]) (by omega)
        (by simp only [List.length_append, List.length_drop, List.length_cons,
              List.length_nil]
            omega)
      rw [hpush, hIH]
      have hL : ((st.drop 1 ++ [s]) ++ l).length - 50 = l.length := by
        simp only [List.length_append, List.length_drop, List.length_cons,
          List.length_nil]
        omega
      have hR : ((st ++ [s]) ++ l).length - 50 = 1 + l.length := by
        simp only [List.length_append, List.length_cons, List.length_nil]
        omega
      have key : ((st ++ [s]) ++ l).drop (1 + l.length) =
          ((st.drop 1 ++ [s]) ++ l).drop l.length := by
        rw [← List.drop_drop]
        congr 1
        rw [List.drop_append_of_le_length (show 1 ≤ (st ++ [s]).length by simp)]
        rw [List.drop_append_of_le_length (show 1 ≤ st.length by omega)]
      rw [hL, hassoc, hR, key]
    · have hpush : snapPush st s = st ++ [s] := by
        unfold snapPush
        simp only []
        rw [if_neg]
        simp only [List.length_append, List.length_cons, List.length_nil, not_lt]
        omega
      have hIH := ih (st ++ [s]) (by simp; omega)
        (by rw [← hassoc]; simpa using hlen)
      rw [hpush, hIH, hassoc]

/-- C5: across all reachable sessions the undo stack holds at most 50
snapshots, and once more than 50 snapshots have been pushed, the stack
is exactly the 50 most recent ones: pushing a sequence of states drops
the oldest entries from the front, keeping the suffix of length 50. -/
theorem history_bound :
    (∀ e : Editor, Reachable e → e.undo_stack.length ≤ 50) ∧
    (∀ st l : List EditorState, st.length ≤ 50 → 50 < (st ++ l).length →
      snapPushAll st l = (st ++ l).drop ((st ++ l).length - 50) ∧
      (snapPushAll st l).length = 50) := by
  constructor
  · exact fun e h => reachable_undo_len h
  · intro st l h50 hgt
    have h := snapPushAll_drop l st h50 (le_of_lt hgt)
    refine ⟨h, ?_⟩
    rw [h]
    simp only [List.length_drop]
    omega

/-- Witness for C5: 51 snapshots starting from an empty stack keep
exactly the most recent 50. -/
theorem history_bound_witness :
    (init none none).undo_stack.length ≤ 50 ∧
    snapPushAll [] (List.replicate 51 (init none none).state) =
      (([] : List EditorState) ++ List.replicate 51 (init none none).state).drop
        ((([] : List EditorState) ++
          List.replicate 51 (init none none).state).length - 50) :=
  ⟨history_bound.1 _ (Reachable.init none none),
   (history_bound.2 [] _ (by simp) (by simp)).1⟩

/-! ### Undo restores the snapshotted state exactly -/

theorem undo_after_snapshot {e e2 : Editor} (hinv : stateInv e.state)
    (hs : e2.undo_stack = snapPush e.undo_stack e.state) :
    (undo e2).state = e.state := by
  unfold undo
  rw [hs, snapPush_getLast]
  simp only []
  exact clamp_cursor_id hinv

theorem delete_undo_stack_effect {e e2 : Editor}
    (hno : ¬(e.state.cursor.x = 0 ∧ e.state.cursor.y = 0))
    (h : delete e = some e2) :
    e2.undo_stack = snapPush e.undo_stack e.state := by
  unfold delete at h
  rw [if_neg hno] at h
  simp only [save_snapshot_state_buffer, save_snapshot_state_cursor] at h
  split at h
  · split at h
    · cases h
    · split at h
      · cases h
      · cases h
        simp
  · split at h
    · cases h
    · split at h
      · cases h
      · cases h
        simp

theorem paste_undo_stack_effect {e e2 : Editor} (hcl : ¬e.clipboard = [])
    (h : paste e = some e2) :
    e2.undo_stack = snapPush e.undo_stack e.state := by
  unfold paste at h
  rw [if_neg hcl] at h
  simp only [save_snapshot_state_buffer, save_snapshot_state_cursor,
    save_snapshot_clipboard] at h
  split at h
  · cases h
  · split at h
    · cases h
    · cases h
      simp

/-- C4: from any state satisfying the clamp invariant (which all
reachable states do), one `undo` immediately after a successful mutating
operation — `insert`, an effective `delete`, `newline`, or `paste` with
a non-empty clipboard — restores the prior `EditorState` exactly
(buffer, cursor, filename and dirty flag), and `undo` with an empty
undo stack is a no-op on the whole editor. -/
theorem undo_round_trip (e : Editor) (hinv : stateInv e.state) :
    (∀ (c : Char) (e2 : Editor), insert e c = some e2 → (undo e2).state = e.state) ∧
    (¬(e.state.cursor.x = 0 ∧ e.state.cursor.y = 0) →
      ∀ e2 : Editor, delete e = some e2 → (undo e2).state = e.state) ∧
    (∀ e2 : Editor, newline e = some e2 → (undo e2).state = e.state) ∧
    (¬e.clipboard = [] →
      ∀ e2 : Editor, paste e = some e2 → (undo e2).state = e.state) ∧
    (e.undo_stack = [] → undo e = e) := by
  refine ⟨?_, ?_, ?_, ?_, ?_⟩
  · intro c e2 h
    exact undo_after_snapshot hinv (insert_undo_stack h)
  · intro hno e2 h
    exact undo_after_snapshot hinv (delete_undo_stack_effect hno h)
  · intro e2 h
    exact undo_after_snapshot hinv (newline_undo_stack h)
  · intro hcl e2 h
    exact undo_after_snapshot hinv (paste_undo_stack_effect hcl h)
  · intro h0
    unfold undo
    rw [h0]
    rfl

/-- Witness for C4: inserting a character into a fresh session and
undoing restores the initial state. -/
theorem undo_round_trip_witness :
    (undo ((insert (init none none) 'a').getD (init none none))).state =
      (init none none).state :=
  (undo_round_trip (init none none) (by decide)).1 'a'
    ((insert (init none none) 'a').getD (init none none)) (by decide)

/-! ### Exact shape of a successful character insertion -/

theorem insert_spec {e : Editor} {line : Str} (c : Char)
    (hl : e.state.buffer[e.state.cursor.y]? = some line)
    (hx : e.state.cursor.x ≤ line.length) :
    insert e c = some (clampEditor (setLine (save_snapshot e)
      (line.take e.state.cursor.x ++
        (match matching_pair c with
         | some p => [c, p]
         | none => [c]) ++ line.drop e.state.cursor.x)
      (e.state.cursor.x + 1))) := by
  have hA : (line.take e.state.cursor.x).length = e.state.cursor.x :=
    List.length_take_of_le hx
  unfold insert
  simp only [save_snapshot_state_buffer, save_snapshot_state_cursor]
  rw [hl]
  cases hmp : matching_pair c with
  | none =>
    simp only []
    unfold insertAt
    rw [if_pos hx]
    simp
  | some pair =>
    simp only []
    unfold insertAt
    rw [if_pos hx]
    simp only []
    rw [if_pos (by
      simp only [List.length_append, List.length_cons]
      omega)]
    have h1 : (line.take e.state.cursor.x ++ c :: line.drop e.state.cursor.x).take
        (e.state.cursor.x + 1) = line.take e.state.cursor.x ++ [c] := by
      have ht := @List.take_append _ (line.take e.state.cursor.x)
        (c :: line.drop e.state.cursor.x) 1
      rw [hA] at ht
      simpa using ht
    have h2 : (line.take e.state.cursor.x ++ c :: line.drop e.state.cursor.x).drop
        (e.state.cursor.x + 1) = line.drop e.state.cursor.x := by
      have hd := @List.drop_append _ (line.take e.state.cursor.x)
        (c :: line.drop e.state.cursor.x) 1
      rw [hA] at hd
      simpa using hd
    rw [h1, h2]
    simp

/-- C6: on any valid state with a non-empty buffer, inserting an
auto-pairing opener writes the opener immediately followed by its
matching closer at the cursor column (the closer is the opener itself
for the two quote characters), and leaves the cursor one column to the
right, between the pair; inserting any other character writes just that
character and advances the cursor by one. -/
theorem auto_pair_insert (e : Editor) (c : Char)
    (hinv : stateInv e.state) (hb : e.state.buffer ≠ []) :
    matching_pair '(' = some ')' ∧
    matching_pair '\x7b' = some '\x7d' ∧
    matching_pair '[' = some ']' ∧
    matching_pair '\"' = some '\"' ∧
    matching_pair '\'' = some '\'' ∧
    ∃ e2 : Editor, insert e c = some e2 ∧
      e2.state.buffer = e.state.buffer.set e.state.cursor.y
        ((e.state.buffer[e.state.cursor.y]?.getD []).take e.state.cursor.x ++
          (match matching_pair c with
           | some p => [c, p]
           | none => [c]) ++
          (e.state.buffer[e.state.cursor.y]?.getD []).drop e.state.cursor.x) ∧
      e2.state.cursor = ⟨e.state.cursor.x + 1, e.state.cursor.y⟩ := by
  refine ⟨by decide, by decide, by decide, by decide, by decide, ?_⟩
  obtain ⟨h1, h2⟩ := hinv
  have hy : e.state.cursor.y < e.state.buffer.length := by
    rcases h1 with h1 | ⟨hB, _⟩
    · exact h1
    · exact absurd hB hb
  obtain ⟨line, hl⟩ : ∃ line, e.state.buffer[e.state.cursor.y]? = some line :=
    ⟨_, List.getElem?_eq_getElem hy⟩
  have hx : e.state.cursor.x ≤ line.length := by
    simpa [bufLineLen, hl] using h2
  have hspec := insert_spec c hl hx
  have hlen1 : 1 ≤ (match matching_pair c with
      | some p => [c, p]
      | none => [c] : Str).length := by
    cases matching_pair c <;> simp
  have hSinv : stateInv (setLine (save_snapshot e)
      (line.take e.state.cursor.x ++
        (match matching_pair c with
         | some p => [c, p]
         | none => [c]) ++ line.drop e.state.cursor.x)
      (e.state.cursor.x + 1)).state := by
    constructor
    · left
      simpa [setLine, List.length_set] using hy
    · simp only [setLine, bufLineLen, save_snapshot_state_buffer,
        save_snapshot_state_cursor]
      rw [List.getElem?_set_self hy]
      simp only [Option.getD_some, List.length_append, List.length_take,
        List.length_drop]
      omega
  refine ⟨_, hspec, ?_, ?_⟩
  · rw [clampEditor_state, clamp_cursor_id hSinv]
    simp [setLine, hl]
  · rw [clampEditor_state, clamp_cursor_id hSinv]
    simp [setLine]

/-- Witness for C6: inserting `(` into a fresh empty session yields the
line `()` with the cursor between the pair. -/
theorem auto_pair_insert_witness :
    insert (init none none) '(' =
      some ((insert (init none none) '(').getD (init none none)) ∧
    ((insert (init none none) '(').getD (init none none)).state.buffer =
      [['(', ')']] ∧
    ((insert (init none none) '(').getD (init none none)).state.cursor = ⟨1, 0⟩ := by
  obtain ⟨-, -, -, -, -, e2, hs, hbuf, hcur⟩ :=
    auto_pair_insert (init none none) '(' (by decide) (by decide)
  refine ⟨by rw [hs]; simp, ?_, ?_⟩
  · rw [hs]
    simpa using hbuf
  · rw [hs]
    simpa using hcur

/-- C7: on any valid state with a non-empty buffer, `newline()` followed
immediately by `delete()` (which takes the line-merge path at the start
of the new line) restores the original buffer and the original cursor
position. -/
theorem newline_delete_symmetry (e : Editor)
    (hinv : stateInv e.state) (hb : e.state.buffer ≠ []) :
    ∃ e1 e2 : Editor, newline e = some e1 ∧ delete e1 = some e2 ∧
      e2.state.buffer = e.state.buffer ∧ e2.state.cursor = e.state.cursor := by
  obtain ⟨h1, h2⟩ := hinv
  have hy : e.state.cursor.y < e.state.buffer.length := by
    rcases h1 with h1 | ⟨hB, _⟩
    · exact h1
    · exact absurd hB hb
  obtain ⟨line, hl⟩ : ∃ line, e.state.buffer[e.state.cursor.y]? = some line :=
    ⟨_, List.getElem?_eq_getElem hy⟩
  have hx : e.state.cursor.x ≤ line.length := by
    simpa [bufLineLen, hl] using h2
  have hA : (e.state.buffer.take e.state.cursor.y).length = e.state.cursor.y :=
    List.length_take_of_le (le_of_lt hy)
  have hAx : (line.take e.state.cursor.x).length = e.state.cursor.x :=
    List.length_take_of_le hx
  have hline : e.state.buffer[e.state.cursor.y] = line :=
    (List.getElem?_eq_some.mp hl).2
  have hBdec : e.state.buffer =
      e.state.buffer.take e.state.cursor.y ++
        line :: e.state.buffer.drop (e.state.cursor.y + 1) := by
    conv_lhs => rw [← List.take_append_drop e.state.cursor.y e.state.buffer]
    rw [← List.getElem_cons_drop e.state.buffer e.state.cursor.y hy, hline]
  have hleft : e.state.buffer.set e.state.cursor.y (line.take e.state.cursor.x) =
      e.state.buffer.take e.state.cursor.y ++
        line.take e.state.cursor.x :: e.state.buffer.drop (e.state.cursor.y + 1) := by
    rw [List.set_eq_take_append_cons_drop, if_pos hy]
  have hB1take :
      (e.state.buffer.take e.state.cursor.y ++
        line.take e.state.cursor.x ::
          e.state.buffer.drop (e.state.cursor.y + 1)).take (e.state.cursor.y + 1) =
      e.state.buffer.take e.state.cursor.y ++ [line.take e.state.cursor.x] := by
    have ht := @List.take_append _ (e.state.buffer.take e.state.cursor.y)
      (line.take e.state.cursor.x :: e.state.buffer.drop (e.state.cursor.y + 1)) 1
    rw [hA] at ht
    simpa using ht
  have hB1drop :
      (e.state.buffer.take e.state.cursor.y ++
        line.take e.state.cursor.x ::
          e.state.buffer.drop (e.state.cursor.y + 1)).drop (e.state.cursor.y + 1) =
      e.state.buffer.drop (e.state.cursor.y + 1) := by
    have hd := @List.drop_append _ (e.state.buffer.take e.state.cursor.y)
      (line.take e.state.cursor.x :: e.state.buffer.drop (e.state.cursor.y + 1)) 1
    rw [hA] at hd
    simpa using hd
  have hnl : newline e = some { save_snapshot e with
      state := { (save_snapshot e).state with
        buffer := (e.state.buffer.take e.state.cursor.y ++
            [line.take e.state.cursor.x]) ++
          line.drop e.state.cursor.x ::
            e.state.buffer.drop (e.state.cursor.y + 1),
        cursor := ⟨0, e.state.cursor.y + 1⟩ } } := by
    unfold newline
    simp only [save_snapshot_state_buffer, save_snapshot_state_cursor]
    rw [hl]
    simp only []
    unfold splitOff
    rw [if_pos hx]
    simp only []
    unfold insertAt
    rw [hleft]
    rw [if_pos (by
      simp only [List.length_append, List.length_cons]
      omega)]
    rw [hB1take, hB1drop]
  have hlen2 : (e.state.buffer.take e.state.cursor.y ++
      [line.take e.state.cursor.x]).length = e.state.cursor.y + 1 := by
    simp [hA]
  have hprev : ((e.state.buffer.take e.state.cursor.y ++
      [line.take e.state.cursor.x]) ++
        line.drop e.state.cursor.x ::
          e.state.buffer.drop (e.state.cursor.y + 1))[e.state.cursor.y]? =
      some (line.take e.state.cursor.x) := by
    rw [List.getElem?_append_left (by omega)]
    rw [List.getElem?_append_right (by omega)]
    simp [hA]
  have hrest : ((e.state.buffer.take e.state.cursor.y ++
      [line.take e.state.cursor.x]) ++
        line.drop e.state.cursor.x ::
          e.state.buffer.drop (e.state.cursor.y + 1))[e.state.cursor.y + 1]? =
      some (line.drop e.state.cursor.x) := by
    rw [List.getElem?_append_right (by omega)]
    simp [hlen2]
  have htake2 : ((e.state.buffer.take e.state.cursor.y ++
      [line.take e.state.cursor.x]) ++
        line.drop e.state.cursor.x ::
          e.state.buffer.drop (e.state.cursor.y + 1)).take (e.state.cursor.y + 1) =
      e.state.buffer.take e.state.cursor.y ++ [line.take e.state.cursor.x] := by
    have ht := @List.take_append _ (e.state.buffer.take e.state.cursor.y ++
      [line.take e.state.cursor.x])
      (line.drop e.state.cursor.x :: e.state.buffer.drop (e.state.cursor.y + 1)) 0
    rw [hlen2] at ht
    simpa using ht
  have hdrop2 : ((e.state.buffer.take e.state.cursor.y ++
      [line.take e.state.cursor.x]) ++
        line.drop e.state.cursor.x ::
          e.state.buffer.drop (e.state.cursor.y + 1)).drop (e.state.cursor.y + 1 + 1) =
      e.state.buffer.drop (e.state.cursor.y + 1) := by
    have hd := @List.drop_append _ (e.state.buffer.take e.state.cursor.y ++
      [line.take e.state.cursor.x])
      (line.drop e.state.cursor.x :: e.state.buffer.drop (e.state.cursor.y + 1)) 1
    rw [hlen2] at hd
    simpa using hd
  have hsetfin : ((e.state.buffer.take e.state.cursor.y ++
      [line.take e.state.cursor.x]) ++
        e.state.buffer.drop (e.state.cursor.y + 1)).set e.state.cursor.y
      (line.take e.state.cursor.x ++ line.drop e.state.cursor.x) =
      e.state.buffer := by
    rw [List.set_eq_take_append_cons_drop]
    rw [if_pos (by
      simp only [List.length_append, List.length_cons, List.length_nil, hA]
      omega)]
    have ht : ((e.state.buffer.take e.state.cursor.y ++
        [line.take e.state.cursor.x]) ++
          e.state.buffer.drop (e.state.cursor.y + 1)).take e.state.cursor.y =
        e.state.buffer.take e.state.cursor.y := by
      rw [List.append_assoc]
      have h0 := @List.take_append _ (e.state.buffer.take e.state.cursor.y)
        ([line.take e.state.cursor.x] ++
          e.state.buffer.drop (e.state.cursor.y + 1)) 0
      rw [hA] at h0
      simpa using h0
    have hd : ((e.state.buffer.take e.state.cursor.y ++
        [line.take e.state.cursor.x]) ++
          e.state.buffer.drop (e.state.cursor.y + 1)).drop (e.state.cursor.y + 1) =
        e.state.buffer.drop (e.state.cursor.y + 1) := by
      have h0 := @List.drop_append _ (e.state.buffer.take e.state.cursor.y ++
        [line.take e.state.cursor.x])
        (e.state.buffer.drop (e.state.cursor.y + 1)) 0
      rw [hlen2] at h0
      simpa using h0
    rw [ht, hd, List.take_append_drop]
    exact hBdec.symm
  have main : ∃ e2, delete { save_snapshot e with
      state := { (save_snapshot e).state with
        buffer := (e.state.buffer.take e.state.cursor.y ++
            [line.take e.state.cursor.x]) ++
          line.drop e.state.cursor.x ::
            e.state.buffer.drop (e.state.cursor.y + 1),
        cursor := ⟨0, e.state.cursor.y + 1⟩ } } = some e2 ∧
      e2.state.buffer = e.state.buffer ∧ e2.state.cursor = e.state.cursor := by
    unfold delete
    simp only [save_snapshot_state_buffer, save_snapshot_state_cursor,
      Nat.add_sub_cancel, Nat.add_eq_zero, and_false, if_false, Nat.lt_irrefl,
      one_ne_zero, false_and, if_neg, not_false_iff]
    simp only [hprev]
    unfold vecRemove
    simp only [hrest]
    simp only [List.eraseIdx_eq_take_drop_succ, htake2, hdrop2, hsetfin, hAx]
    exact ⟨_, rfl, rfl, rfl⟩
  obtain ⟨e2, hd, hb2, hc2⟩ := main
  exact ⟨_, e2, hnl, hd, hb2, hc2⟩

/-- Witness for C7: splitting the line `hi` after its first character
and deleting at the start of the new line restores the buffer and the
cursor of `midE`. -/
theorem newline_delete_symmetry_witness :
    ((newline midE).bind delete).map
        (fun e2 => (e2.state.buffer, e2.state.cursor)) =
      some (midE.state.buffer, midE.state.cursor) := by
  obtain ⟨e1, e2, hn, hd, hbuf, hcur⟩ :=
    newline_delete_symmetry midE (by decide) (by decide)
  rw [hn]
  simp only [Option.bind_some, Option.some_bind]
  rw [hd]
  simp [hbuf, hcur]

/-- C8: dispatching the command `w` with no known filename enters the
filename-prompt overlay without changing the dirty flag and without
leaving the event loop; dispatching `q` with a clean buffer leaves the
loop immediately with the whole editor untouched (so no overlay is
entered); dispatching `q` with a dirty buffer enters the confirm-exit
overlay with `pending_save` set and does not leave the loop. -/
theorem command_dispatch (e : Editor) (w : Bool) :
    (e.command = ['w'] → e.state.filename = none →
      (process_command e w).1.ask_filename = true ∧
      (process_command e w).1.state.dirty = e.state.dirty ∧
      (process_command e w).2 = CmdResult.cont) ∧
    (e.command = ['q'] → e.state.dirty = false →
      process_command e w = (e, CmdResult.exitLoop)) ∧
    (e.command = ['q'] → e.state.dirty = true →
      (process_command e w).1.confirm_exit = true ∧
      (process_command e w).1.pending_save = true ∧
      (process_command e w).2 = CmdResult.cont) := by
  have hw : trimChars ['w'] = ['w'] := by decide
  have hq : trimChars ['q'] = ['q'] := by decide
  refine ⟨?_, ?_, ?_⟩
  · intro hc hf
    unfold process_command
    rw [hc, hw]
    unfold dispatch
    simp only []
    rw [if_pos trivial, hf]
    simp
  · intro hc hf
    unfold process_command
    rw [hc, hq]
    unfold dispatch
    simp only []
    rw [if_neg (by decide), if_pos trivial, hf]
    simp
  · intro hc hf
    unfold process_command
    rw [hc, hq]
    unfold dispatch
    simp only []
    rw [if_neg (by decide), if_pos trivial, hf]
    simp

/-- Witness for C8 at concrete sessions: `w` with no filename prompts,
`q` clean exits, `q` dirty confirms. -/
theorem command_dispatch_witness :
    ((process_command cmdW true).1.ask_filename = true ∧
      (process_command cmdW true).1.state.dirty = cmdW.state.dirty ∧
      (process_command cmdW true).2 = CmdResult.cont) ∧
    process_command cmdQClean true = (cmdQClean, CmdResult.exitLoop) ∧
    ((process_command cmdQ true).1.confirm_exit = true ∧
      (process_command cmdQ true).1.pending_save = true ∧
      (process_command cmdQ true).2 = CmdResult.cont) :=
  ⟨(command_dispatch cmdW true).1 rfl rfl,
   (command_dispatch cmdQClean true).2.1 rfl rfl,
   (command_dispatch cmdQ true).2.2 rfl rfl⟩

/-- C9 counterexample: in the confirm-exit overlay with no known
filename and a dirty buffer, answering `y` opens the filename prompt,
and committing that prompt with Enter (the write succeeding) does NOT
terminate the loop: the step returns with the exit flag `false` and the
confirm-exit overlay still active, refuting the claim that the program
"then terminates" once the prompt is committed. -/
theorem confirm_exit_commit_no_exit :
    step cex0 (Key.char 'y' false) true = some (cex1, false) ∧
    step cex1 Key.enter true = some (cex2, false) ∧
    cex2.confirm_exit = true ∧
    cex2.pending_save = true := by decide

/-- C9 amended: in the confirm-exit overlay, `y`/`Y` with a known
filename saves and terminates; with no filename it falls through to the
filename prompt; committing that prompt with Enter saves to the typed
name and closes the prompt but does not itself terminate — the
confirm-exit overlay keeps whatever state it had (`pending_save` is
never consulted), so terminating still requires answering it; `n`/`N`
terminates without saving; Escape cancels the overlay and clears
`pending_save`. -/
theorem confirm_exit_overlay (e : Editor) (w : Bool)
    (hc : e.confirm_exit = true) (ha : e.ask_filename = false) :
    (∀ name : Str, e.state.filename = some name →
      step e (Key.char 'y' false) w = some ((save_to_file e name w).1, true) ∧
      step e (Key.char 'Y' false) w = some ((save_to_file e name w).1, true)) ∧
    (e.state.filename = none →
      step e (Key.char 'y' false) w =
        some ({ e with ask_filename := true }, false) ∧
      step e (Key.char 'Y' false) w =
        some ({ e with ask_filename := true }, false)) ∧
    (step e (Key.char 'n' false) w = some (e, true) ∧
      step e (Key.char 'N' false) w = some (e, true)) ∧
    (step e Key.esc w =
      some ({ e with confirm_exit := false, pending_save := false }, false)) ∧
    (∀ e2 : Editor, e2.ask_filename = true →
      step e2 Key.enter w =
        some ({ (save_to_file e2 e2.input_filename w).1 with
          ask_filename := false }, false) ∧
      ({ (save_to_file e2 e2.input_filename w).1 with
          ask_filename := false }).confirm_exit = e2.confirm_exit) := by
  refine ⟨?_, ?_, ?_, ?_, ?_⟩
  · intro name hfn
    constructor
    · unfold step
      rw [ha]
      simp only [Bool.false_eq_true, if_false, hc, if_true]
      rw [if_pos (Or.inl trivial), hfn]
    · unfold step
      rw [ha]
      simp only [Bool.false_eq_true, if_false, hc, if_true]
      rw [if_pos (Or.inr trivial), hfn]
  · intro hfn
    constructor
    · unfold step
      rw [ha]
      simp only [Bool.false_eq_true, if_false, hc, if_true]
      rw [if_pos (Or.inl trivial), hfn]
    · unfold step
      rw [ha]
      simp only [Bool.false_eq_true, if_false, hc, if_true]
      rw [if_pos (Or.inr trivial), hfn]
  · constructor
    · unfold step
      rw [ha]
      simp only [Bool.false_eq_true, if_false, hc, if_true]
      rw [if_neg (by decide), if_pos (Or.inl trivial)]
    · unfold step
      rw [ha]
      simp only [Bool.false_eq_true, if_false, hc, if_true]
      rw [if_neg (by decide), if_pos (Or.inr trivial)]
  · unfold step
    rw [ha]
    simp only [Bool.false_eq_true, if_false, hc, if_true]
  · intro e2 he2
    constructor
    · unfold step
      rw [he2]
      simp only [if_true]
    · have hcf : (save_to_file e2 e2.input_filename w).1.confirm_exit =
          e2.confirm_exit := by
        unfold save_to_file
        split <;> rfl
      simpa using hcf

/-- Witness for C9's amended behaviour: answering `n` or `N` in the
overlay of the concrete dirty session terminates without saving. -/
theorem confirm_exit_overlay_witness :
    step cex0 (Key.char 'n' false) true = some (cex0, true) ∧
    step cex0 (Key.char 'N' false) true = some (cex0, true) :=
  (confirm_exit_overlay cex0 true rfl rfl).2.2.1

/-- C1 evaluation at the failing input: per `load_file`, a filename
whose read fails (missing or unreadable file), and equally an empty
file, both yield an empty buffer — zero lines, not the one empty line
the claim requires; only the no-filename branch produces `[""]`.  The
startup cursor is `(0,0)` as claimed. -/
theorem load_missing_file_empty_buffer :
    load_file (some ['f']) none = ([] : List Str) ∧
    load_file (some ['f']) (some []) = ([] : List Str) ∧
    (init (some ['f']) none).state.buffer = ([] : List Str) ∧
    (init (some ['f']) none).state.cursor = ⟨0, 0⟩ ∧
    load_file none none = [[]] ∧
    ([] : List Str) ≠ ([[]] : List Str) := by decide

/-- C2 evaluation at the failing input: after opening a missing,
unreadable or empty file the buffer has zero lines, and the very next
character insertion, right-arrow move, copy (Ctrl+C), Enter or paste
path indexes row 0 of the empty buffer: the Rust program panics
(modelled by `none`). -/
theorem insert_after_missing_file_panics :
    insert (init (some ['f']) none) 'a' = none ∧
    step (init (some ['f']) none) (Key.char 'a' false) true = none ∧
    step (init (some ['f']) none) Key.right true = none ∧
    step (init (some ['f']) none) (Key.char 'c' true) true = none ∧
    step (init (some ['f']) none) Key.enter true = none ∧
    step (init (some ['f']) (some [])) (Key.char 'a' false) true = none := by
  decide

/-- C10 evaluation at the failing input: committing the filename prompt
with Enter while the write fails leaves the session identical except
that the prompt closes — still dirty, no filename recorded, and the
`Editor` structure has no status or error field at all in which the
failure could be surfaced to the user. -/
theorem explicit_save_failure_silent :
    step fex Key.enter false = some ({ fex with ask_filename := false }, false) ∧
    ({ fex with ask_filename := false }).state.dirty = true ∧
    ({ fex with ask_filename := false }).state.filename = none := by decide

end Aon
